import Mathlib

/-!
Verification of the blend-index module (src/utils/blend_indices.py).

The module converts physical petroleum-stream quality measurements
(viscosity, Reid vapor pressure, pour point, API gravity) into blending
index values and back.  Each transform is a pure vectorized numeric
function; a registry dictionary maps property keys to their forward and
inverse transforms; a constraint-projection routine rewrites quality
constraint sets between physical and index units.

Embedding choices:
* numpy double arithmetic is embedded as exact real arithmetic over ℝ;
  `np.power`, `np.log10` become `Real.rpow`, `Real.logb 10`.
* A numpy scalar-or-array argument is embedded twice: a scalar version
  (`ℝ`) and a vectorized version (`List ℝ`), elementwise as numpy is.
* The failure channel (Python exceptions) is embedded with `Except`:
  the `assert np.all(v > 0.2)` in `vbi` surfaces as `DomainError` (the
  error taxonomy of the design), and a missing dictionary key surfaces
  as `NotFoundError` carrying the key, as Python's `KeyError` does.
* `x / 0 = 0` in ℝ, while numpy division by zero yields an infinity
  without raising.  Theorems about `sg` therefore never assert the
  numeric value at the pole `api = -131.5`, only whether a call
  succeeds or fails there.
-/

namespace BlendIndices

/-- Error taxonomy of the module: `notFound` is an unknown registry key
(Python `KeyError`, carrying the key), `domainError` is a violated
transform precondition (the `assert` in `vbi`). -/
inductive BlendError where
  | notFound (key : String)
  | domainError
deriving DecidableEq

/-- Direction argument of constraint projection: physical → index or
index → physical. -/
inductive Direction where
  | to_index
  | to_physical
deriving DecidableEq

/-- `isOk e` is true when `e` is a successful (`ok`) result. -/
def isOk {ε α : Type} : Except ε α → Bool
  | .ok _ => true
  | .error _ => false

noncomputable section

/-- Source: `celcius_to_fahrenheit(c) = c * 9/5 + 32`. -/
def celcius_to_fahrenheit (c : ℝ) : ℝ := c * 9 / 5 + 32

/-- Source: `fahrenheit_to_celcius(f) = (f - 32) * 5/9`. -/
def fahrenheit_to_celcius (f : ℝ) : ℝ := (f - 32) * 5 / 9

/-- Source: `rvpi(rvp) = np.power(rvp, 1.25)`. -/
def rvpi (rvp : ℝ) : ℝ := rvp ^ (1.25 : ℝ)

/-- Source: `inv_rvpi(rvpi) = np.power(rvpi, 1.0/1.25)`. -/
def inv_rvpi (r : ℝ) : ℝ := r ^ ((1.0 : ℝ) / 1.25)

/-- Source: `ppi(pp)` converts Fahrenheit to Celsius, normalizes via
`(ppc + 273.15) / 283.15`, scales by `100 ** 0.08` and raises to the
power 12.5. -/
def ppi (pp : ℝ) : ℝ :=
  let ppc := fahrenheit_to_celcius pp
  let term1 := (ppc + 273.15) / 283.15
  let term2 := term1 * (100 : ℝ) ^ (0.08 : ℝ)
  term2 ^ (12.5 : ℝ)

/-- Source: `inv_ppi(ppi) = (283.15*((ppi/100)**0.08) - 273.15) * 1.8 + 32`. -/
def inv_ppi (p : ℝ) : ℝ := (283.15 * ((p / 100) ^ (0.08 : ℝ)) - 273.15) * 1.8 + 32

/-- The arithmetic body of `vbi`: `np.log10(np.log10(v + 0.8))`. -/
def vbiFormula (v : ℝ) : ℝ := Real.logb 10 (Real.logb 10 (v + 0.8))

/-- Source `vbi(v)`, scalar case: the guard `assert np.all(v > 0.2)`
runs before the double logarithm is computed; its failure is the
design's `DomainError`. -/
def vbi (v : ℝ) : Except BlendError ℝ :=
  if 0.2 < v then .ok (vbiFormula v) else .error .domainError

/-- Source `vbi(v)`, vectorized case: `np.all` validates every element
up front, so a single out-of-domain element fails the whole call and no
output is produced. -/
def vbiV (vs : List ℝ) : Except BlendError (List ℝ) :=
  if ∀ v ∈ vs, 0.2 < v then .ok (vs.map vbiFormula) else .error .domainError

/-- Source: `inv_vbi(vbi) = np.power(10, np.power(10, vbi)) - 0.8`. -/
def inv_vbi (y : ℝ) : ℝ := (10 : ℝ) ^ ((10 : ℝ) ^ y) - 0.8

/-- Source: `sg(api) = np.divide(141.5, 131.5 + api)`.  The source has
no domain guard: numpy division by zero warns and yields an infinity
rather than raising. -/
def sg (a : ℝ) : ℝ := 141.5 / (131.5 + a)

/-- Source: `api(sg) = np.divide(141.5, sg) - 131.5`. -/
def api (s : ℝ) : ℝ := 141.5 / s - 131.5

/-- Lifts a total transform to the failure-channel type, scalar case:
the transforms other than `vbi` contain no guard and always succeed. -/
def okMap (f : ℝ → ℝ) : ℝ → Except BlendError ℝ := fun x => .ok (f x)

/-- Lifts a total transform to the failure-channel type, vectorized
case: numpy applies it elementwise over the array. -/
def okMapV (f : ℝ → ℝ) : List ℝ → Except BlendError (List ℝ) := fun xs => .ok (xs.map f)

/-- One entry of the `blend_indices` dictionary: the `index_name`
string, the forward transform `func` and the inverse transform
`inv_func`, each in scalar and vectorized (`v`-prefixed) form. -/
structure Descriptor where
  index_name : String
  func : ℝ → Except BlendError ℝ
  vfunc : List ℝ → Except BlendError (List ℝ)
  inv_func : ℝ → Except BlendError ℝ
  vinv_func : List ℝ → Except BlendError (List ℝ)

/-- The `"vis100f"` entry of `blend_indices`. -/
def vis100fD : Descriptor :=
  { index_name := "vis100f_idx", func := vbi, vfunc := vbiV,
    inv_func := okMap inv_vbi, vinv_func := okMapV inv_vbi }

/-- The `"rvp"` entry of `blend_indices`. -/
def rvpD : Descriptor :=
  { index_name := "rvp_idx", func := okMap rvpi, vfunc := okMapV rvpi,
    inv_func := okMap inv_rvpi, vinv_func := okMapV inv_rvpi }

/-- The `"pour"` entry of `blend_indices`. -/
def pourD : Descriptor :=
  { index_name := "pour_idx", func := okMap ppi, vfunc := okMapV ppi,
    inv_func := okMap inv_ppi, vinv_func := okMapV inv_ppi }

/-- The `"api"` entry of `blend_indices`. -/
def apiD : Descriptor :=
  { index_name := "sg", func := okMap sg, vfunc := okMapV sg,
    inv_func := okMap api, vinv_func := okMapV api }

/-- The `blend_indices` registry dictionary, in source order.  A Python
dict preserves insertion order, so it is embedded as an association
list.  It is a plain definition: nothing in the module (or in this
development) ever adds, removes or replaces an entry. -/
def blend_indices : List (String × Descriptor) :=
  [("vis100f", vis100fD), ("rvp", rvpD), ("pour", pourD), ("api", apiD)]

/-- Dictionary lookup `blend_indices[key]`: a missing key raises
Python's `KeyError` naming the key, embedded as `notFound key`. -/
def find_descriptor (key : String) : Except BlendError Descriptor :=
  match blend_indices.find? (fun p => p.1 == key) with
  | some p => .ok p.2
  | none => .error (.notFound key)

/-- Whether `key` is a key of the registry. -/
def isRegistered (key : String) : Bool :=
  (blend_indices.find? (fun p => p.1 == key)).isSome

/-- Dispatch of the forward transform by property key, scalar case:
`blend_indices[key]["func"](x)`. -/
def forward (key : String) (x : ℝ) : Except BlendError ℝ := do
  let d ← find_descriptor key
  d.func x

/-- Dispatch of the inverse transform by property key, scalar case:
`blend_indices[key]["inv_func"](x)`. -/
def inverse (key : String) (x : ℝ) : Except BlendError ℝ := do
  let d ← find_descriptor key
  d.inv_func x

/-- Selects the vectorized transform of a descriptor for a projection
direction: forward for `to_index`, inverse for `to_physical`. -/
def dirFunc (d : Descriptor) : Direction → (List ℝ → Except BlendError (List ℝ))
  | .to_index => d.vfunc
  | .to_physical => d.vinv_func

/-- Rewrites every constraint entry through its transform, in input
order; the first failing transform aborts the whole call. -/
def applyAll (cs : List (String × List ℝ)) (dir : Direction) :
    Except BlendError (List (String × List ℝ)) :=
  match cs with
  | [] => .ok []
  | (k, vs) :: rest => do
    let d ← find_descriptor k
    let ys ← dirFunc d dir vs
    let tail ← applyAll rest dir
    pure ((k, ys) :: tail)

/-- Modelled from the spec: the body of `process_quality_constraints`
is absent from the source (the function holds only a docstring), so the
constraint projector is taken from the specification's contract.  Every
key of the input is first validated against the registry, and the first
unknown key fails the whole call with `NotFoundError` naming it; then
each value sequence is rewritten through the descriptor's transform for
the requested direction, any transform failure aborting the whole call.
Keys keep the input iteration order and no partial result is ever
returned. -/
def project_constraints (cs : List (String × List ℝ)) (dir : Direction) :
    Except BlendError (List (String × List ℝ)) :=
  match cs.find? (fun p => !(isRegistered p.1)) with
  | some p => .error (.notFound p.1)
  | none => applyAll cs dir

end

/-! Round-trip helper lemmas for the four transform pairs. -/

theorem inv_rvpi_rvpi (x : ℝ) (hx : 0 ≤ x) : inv_rvpi (rvpi x) = x := by
  unfold rvpi inv_rvpi
  rw [← Real.rpow_mul hx]
  have h : (1.25 : ℝ) * (1.0 / 1.25) = 1 := by norm_num
  rw [h, Real.rpow_one]

theorem rvpi_inv_rvpi (y : ℝ) (hy : 0 ≤ y) : rvpi (inv_rvpi y) = y := by
  unfold rvpi inv_rvpi
  rw [← Real.rpow_mul hy]
  have h : (1.0 / 1.25 : ℝ) * 1.25 = 1 := by norm_num
  rw [h, Real.rpow_one]

theorem pour_term1_nonneg (x : ℝ) (hx : -459.67 ≤ x) :
    0 ≤ ((x - 32) * 5 / 9 + 273.15) / 283.15 := by
  have h : 0 ≤ (x - 32) * 5 / 9 + 273.15 := by linarith
  exact div_nonneg h (by norm_num)

theorem pour_pow_chain (t : ℝ) (ht : 0 ≤ t) :
    ((t * (100 : ℝ) ^ (0.08 : ℝ)) ^ (12.5 : ℝ) / 100) ^ (0.08 : ℝ) = t := by
  have h100 : (0 : ℝ) ≤ 100 := by norm_num
  have hA : (0 : ℝ) ≤ (100 : ℝ) ^ (0.08 : ℝ) := Real.rpow_nonneg h100 _
  rw [Real.mul_rpow ht hA, ← Real.rpow_mul h100]
  have he : (0.08 : ℝ) * 12.5 = 1 := by norm_num
  rw [he, Real.rpow_one]
  rw [mul_div_assoc, div_self (by norm_num : (100 : ℝ) ≠ 0), mul_one]
  rw [← Real.rpow_mul ht]
  have he2 : (12.5 : ℝ) * 0.08 = 1 := by norm_num
  rw [he2, Real.rpow_one]

theorem inv_ppi_ppi (x : ℝ) (hx : -459.67 ≤ x) : inv_ppi (ppi x) = x := by
  have ht := pour_term1_nonneg x hx
  have hcore := pour_pow_chain _ ht
  simp only [ppi, inv_ppi, fahrenheit_to_celcius]
  rw [hcore]
  ring

theorem ppi_inv_ppi (y : ℝ) (hy : 0 ≤ y) : ppi (inv_ppi y) = y := by
  have h100 : (0 : ℝ) ≤ 100 := by norm_num
  have hq : 0 ≤ y / 100 := by positivity
  have h1 : (((283.15 * ((y / 100) ^ (0.08 : ℝ)) - 273.15) * 1.8 + 32 - 32) * 5 / 9 + 273.15)
        / 283.15 = (y / 100) ^ (0.08 : ℝ) := by ring
  simp only [ppi, inv_ppi, fahrenheit_to_celcius]
  rw [h1, ← Real.mul_rpow hq h100, div_mul_cancel₀ _ (by norm_num : (100 : ℝ) ≠ 0),
      ← Real.rpow_mul hy]
  have he : (0.08 : ℝ) * 12.5 = 1 := by norm_num
  rw [he, Real.rpow_one]

theorem inv_vbi_vbiFormula (x : ℝ) (hx : 0.2 < x) : inv_vbi (vbiFormula x) = x := by
  have hb : (0 : ℝ) < 10 := by norm_num
  have hb1 : (10 : ℝ) ≠ 1 := by norm_num
  have hpos : (0 : ℝ) < x + 0.8 := by linarith
  have hone : (1 : ℝ) < x + 0.8 := by linarith
  have hlog : 0 < Real.logb 10 (x + 0.8) := Real.logb_pos (by norm_num) hone
  unfold inv_vbi vbiFormula
  rw [Real.rpow_logb hb hb1 hlog, Real.rpow_logb hb hb1 hpos]
  ring

theorem vbiFormula_inv_vbi (y : ℝ) : vbiFormula (inv_vbi y) = y := by
  have hb : (0 : ℝ) < 10 := by norm_num
  have hb1 : (10 : ℝ) ≠ 1 := by norm_num
  unfold vbiFormula inv_vbi
  rw [(by ring : (10 : ℝ) ^ ((10 : ℝ) ^ y) - 0.8 + 0.8 = (10 : ℝ) ^ ((10 : ℝ) ^ y)),
      Real.logb_rpow hb hb1, Real.logb_rpow hb hb1]

theorem api_sg (a : ℝ) (_h : 131.5 + a ≠ 0) : api (sg a) = a := by
  unfold sg api
  field_simp

theorem sg_api (s : ℝ) (_h : s ≠ 0) : sg (api s) = s := by
  unfold sg api
  have h2 : 131.5 + (141.5 / s - 131.5) = 141.5 / s := by ring
  rw [h2]
  field_simp

theorem map_roundtrip {f g : ℝ → ℝ} {P : ℝ → Prop}
    (h : ∀ x, P x → g (f x) = x) :
    ∀ xs : List ℝ, (∀ x ∈ xs, P x) → (xs.map f).map g = xs := by
  intro xs
  induction xs with
  | nil => intro _; simp
  | cons a t ih =>
    intro hxs
    simp only [List.map_cons, List.cons.injEq]
    exact ⟨h a (hxs a (List.mem_cons_self a t)),
      ih (fun x hx => hxs x (List.mem_cons_of_mem a hx))⟩

theorem map_roundtrip_total {f g : ℝ → ℝ} (h : ∀ x, g (f x) = x) (xs : List ℝ) :
    (xs.map f).map g = xs := by
  rw [List.map_map]
  have hid : (g ∘ f) = id := funext fun x => h x
  rw [hid, List.map_id]

/-- C1: for every supported property (viscosity, Reid vapor pressure,
pour point, API gravity) and every value in that property's valid
domain, inverse ∘ forward recovers the physical value and
forward ∘ inverse recovers the index value, for scalars and
element-wise for lists (arrays).  In the exact real-number embedding
the recovery is exact, hence in particular within any floating-point
tolerance.  Valid domains: rvp ≥ 0; pour point ≥ -459.67 °F (absolute
zero) with index ≥ 0; viscosity > 0.2 with any real index; API ≠
-131.5 with nonzero specific gravity. -/
theorem C1_round_trips :
    (∀ x : ℝ, 0 ≤ x → inv_rvpi (rvpi x) = x) ∧
    (∀ y : ℝ, 0 ≤ y → rvpi (inv_rvpi y) = y) ∧
    (∀ x : ℝ, -459.67 ≤ x → inv_ppi (ppi x) = x) ∧
    (∀ y : ℝ, 0 ≤ y → ppi (inv_ppi y) = y) ∧
    (∀ x : ℝ, 0.2 < x → inv_vbi (vbiFormula x) = x) ∧
    (∀ y : ℝ, vbiFormula (inv_vbi y) = y) ∧
    (∀ x : ℝ, 131.5 + x ≠ 0 → api (sg x) = x) ∧
    (∀ y : ℝ, y ≠ 0 → sg (api y) = y) ∧
    (∀ xs : List ℝ, (∀ x ∈ xs, 0 ≤ x) → (xs.map rvpi).map inv_rvpi = xs) ∧
    (∀ ys : List ℝ, (∀ y ∈ ys, 0 ≤ y) → (ys.map inv_rvpi).map rvpi = ys) ∧
    (∀ xs : List ℝ, (∀ x ∈ xs, -459.67 ≤ x) → (xs.map ppi).map inv_ppi = xs) ∧
    (∀ ys : List ℝ, (∀ y ∈ ys, 0 ≤ y) → (ys.map inv_ppi).map ppi = ys) ∧
    (∀ xs : List ℝ, (∀ x ∈ xs, 0.2 < x) → (xs.map vbiFormula).map inv_vbi = xs) ∧
    (∀ ys : List ℝ, (ys.map inv_vbi).map vbiFormula = ys) ∧
    (∀ xs : List ℝ, (∀ x ∈ xs, 131.5 + x ≠ 0) → (xs.map sg).map api = xs) ∧
    (∀ ys : List ℝ, (∀ y ∈ ys, y ≠ 0) → (ys.map api).map sg = ys) :=
  ⟨inv_rvpi_rvpi, rvpi_inv_rvpi, inv_ppi_ppi, ppi_inv_ppi, inv_vbi_vbiFormula,
    vbiFormula_inv_vbi, api_sg, sg_api,
    map_roundtrip inv_rvpi_rvpi, map_roundtrip rvpi_inv_rvpi,
    map_roundtrip inv_ppi_ppi, map_roundtrip ppi_inv_ppi,
    map_roundtrip inv_vbi_vbiFormula, map_roundtrip_total vbiFormula_inv_vbi,
    map_roundtrip api_sg, map_roundtrip sg_api⟩

/-- C1 witness: the round trips evaluated at concrete in-domain points,
scalar and singleton-list cases. -/
theorem C1_round_trips_witness :
    inv_rvpi (rvpi 1) = 1 ∧ rvpi (inv_rvpi 4) = 4 ∧ inv_ppi (ppi 32) = 32 ∧
    ppi (inv_ppi 1) = 1 ∧ inv_vbi (vbiFormula 1) = 1 ∧ api (sg 30) = 30 ∧
    sg (api 1) = 1 ∧ ([(1 : ℝ)].map rvpi).map inv_rvpi = [1] ∧
    ([(1 : ℝ)].map inv_rvpi).map rvpi = [1] ∧ ([(32 : ℝ)].map ppi).map inv_ppi = [32] ∧
    ([(1 : ℝ)].map inv_ppi).map ppi = [1] ∧ ([(1 : ℝ)].map vbiFormula).map inv_vbi = [1] ∧
    ([(30 : ℝ)].map sg).map api = [30] ∧ ([(1 : ℝ)].map api).map sg = [1] := by
  obtain ⟨h1, h2, h3, h4, h5, _h6, h7, h8, h9, h10, h11, h12, h13, _h14, h15, h16⟩ :=
    C1_round_trips
  exact ⟨h1 1 (by norm_num), h2 4 (by norm_num), h3 32 (by norm_num), h4 1 (by norm_num),
    h5 1 (by norm_num), h7 30 (by norm_num), h8 1 (by norm_num),
    h9 [1] (by norm_num), h10 [1] (by norm_num), h11 [32] (by norm_num),
    h12 [1] (by norm_num), h13 [1] (by norm_num), h15 [30] (by norm_num),
    h16 [1] (by norm_num)⟩

/-- C6: the pour-point forward transform at 32 °F (0 °C) equals
`((273.15/283.15) * 100 ^ 0.08) ^ 12.5`, and the pour-point inverse
transform recovers 32 from that result (exactly, in the real-number
embedding, hence within any tolerance). -/
theorem C6_pour_known_value :
    ppi 32 = ((273.15 / 283.15) * (100 : ℝ) ^ (0.08 : ℝ)) ^ (12.5 : ℝ) ∧
    inv_ppi (ppi 32) = 32 := by
  constructor
  · simp only [ppi, fahrenheit_to_celcius]
    norm_num
  · exact inv_ppi_ppi 32 (by norm_num)

/-! Evaluation of registry dispatch at the four registered keys. -/

theorem forward_vis (v : ℝ) : forward ("vis100f") v = vbi v := rfl

theorem forward_rvp (x : ℝ) : forward ("rvp") x = .ok (rvpi x) := rfl

theorem forward_pour (x : ℝ) : forward ("pour") x = .ok (ppi x) := rfl

theorem forward_api (a : ℝ) : forward ("api") a = .ok (sg a) := rfl

/-- C3: the viscosity forward transform fails with a `DomainError` for
every value ≤ 0.2, and the guard runs first, so no result is produced;
for a vectorized input every element is validated and a single
out-of-domain element fails the whole call; 0.2000001 succeeds. -/
theorem C3_viscosity_domain_guard :
    (∀ v : ℝ, v ≤ 0.2 → vbi v = .error .domainError ∧
      forward ("vis100f") v = .error .domainError) ∧
    (∀ vs : List ℝ, ∀ v ∈ vs, v ≤ 0.2 → vbiV vs = .error .domainError) ∧
    vbi 0.2000001 = .ok (vbiFormula 0.2000001) := by
  refine ⟨?_, ?_, ?_⟩
  · intro v hv
    have hcond : ¬ (0.2 < v) := not_lt.mpr hv
    have h1 : vbi v = .error .domainError := by unfold vbi; rw [if_neg hcond]
    exact ⟨h1, by rw [forward_vis, h1]⟩
  · intro vs v hv hle
    have hcond : ¬ (∀ w ∈ vs, 0.2 < w) := by
      intro hall
      exact absurd (hall v hv) (not_lt.mpr hle)
    unfold vbiV
    rw [if_neg hcond]
  · have hgt : (0.2 : ℝ) < 0.2000001 := by norm_num
    unfold vbi
    rw [if_pos hgt]

/-- C3 witness: the guard evaluated at 0.1 (scalar and via registry
dispatch), at the list `[1, 0.1]` whose second element is invalid, and
at the succeeding input 0.2000001. -/
theorem C3_viscosity_domain_guard_witness :
    vbi (0.1 : ℝ) = .error .domainError ∧
    forward ("vis100f") (0.1 : ℝ) = .error .domainError ∧
    vbiV [(1 : ℝ), 0.1] = .error .domainError ∧
    vbi 0.2000001 = .ok (vbiFormula 0.2000001) := by
  obtain ⟨hs, hv, hok⟩ := C3_viscosity_domain_guard
  obtain ⟨h1, h2⟩ := hs 0.1 (by norm_num)
  exact ⟨h1, h2, hv [1, 0.1] 0.1 (by simp) (by norm_num), hok⟩

/-- C8: for every real index value, the viscosity inverse transform
returns a value strictly greater than 0.2 (because `10 ^ (10 ^ y) > 1`
for every real `y`), so its output lies in the forward transform's
valid domain and forward applied to it never trips the guard. -/
theorem C8_inv_vbi_always_in_domain :
    ∀ y : ℝ, 0.2 < inv_vbi y ∧ vbi (inv_vbi y) = .ok (vbiFormula (inv_vbi y)) := by
  intro y
  have h10 : (0 : ℝ) < 10 := by norm_num
  have hexp : (0 : ℝ) < (10 : ℝ) ^ y := Real.rpow_pos_of_pos h10 y
  have hone : (1 : ℝ) < (10 : ℝ) ^ ((10 : ℝ) ^ y) := by
    rw [Real.one_lt_rpow_iff_of_pos h10]
    exact Or.inl ⟨by norm_num, hexp⟩
  have hdom : 0.2 < inv_vbi y := by unfold inv_vbi; linarith
  exact ⟨hdom, by unfold vbi; rw [if_pos hdom]⟩

/-- C8 witness: the invariant evaluated at the index value 0. -/
theorem C8_inv_vbi_always_in_domain_witness :
    0.2 < inv_vbi 0 ∧ vbi (inv_vbi 0) = .ok (vbiFormula (inv_vbi 0)) :=
  C8_inv_vbi_always_in_domain 0

/-- C4 counterexample: the source `sg` has no domain guard, so at
API = -131.5 (zero specific-gravity denominator) the forward transform
does not fail with a `DomainError`: the call succeeds (numpy emits a
warning and yields a non-finite quotient rather than raising). -/
theorem C4_no_domain_error_at_pole : isOk (forward ("api") (-131.5)) = true := by
  rw [forward_api]
  rfl

/-- C4 (amended): the API-gravity forward transform performs no domain
check and succeeds for every input, including API = -131.5 where the
denominator 131.5 + API is zero; for input 0 it succeeds and returns
141.5/131.5. -/
theorem C4_api_forward_total :
    (∀ a : ℝ, forward ("api") a = .ok (sg a)) ∧
    forward ("api") 0 = .ok (141.5 / 131.5) := by
  constructor
  · exact forward_api
  · rw [forward_api]
    norm_num [sg]

/-- C4 witness: the amended statement evaluated at the pole input. -/
theorem C4_api_forward_total_witness :
    forward ("api") (-131.5) = .ok (sg (-131.5)) :=
  C4_api_forward_total.1 (-131.5)

/-- C9: the registry's key set is exactly `vis100f`, `rvp`, `pour`,
`api` in source order, and every entry carries its `index_name` string
together with both a forward and an inverse transform function.  The
registry is a plain constant of the embedding, mirroring that no
operation in the module ever adds, removes or replaces an entry (the
dictionary is constructed once and never written to). -/
theorem C9_registry_contents :
    blend_indices.map Prod.fst = ["vis100f", "rvp", "pour", "api"] ∧
    blend_indices.map (fun p => p.2.index_name) = ["vis100f_idx", "rvp_idx", "pour_idx", "sg"] ∧
    blend_indices.length = 4 ∧
    vis100fD.func = vbi ∧ vis100fD.inv_func = okMap inv_vbi ∧
    rvpD.func = okMap rvpi ∧ rvpD.inv_func = okMap inv_rvpi ∧
    pourD.func = okMap ppi ∧ pourD.inv_func = okMap inv_ppi ∧
    apiD.func = okMap sg ∧ apiD.inv_func = okMap api :=
  ⟨rfl, rfl, rfl, rfl, rfl, rfl, rfl, rfl, rfl, rfl, rfl⟩

/-! Lookup failure on unknown keys. -/

theorem find_descriptor_not_registered (key : String) (h : isRegistered key = false) :
    find_descriptor key = .error (.notFound key) := by
  unfold isRegistered at h
  unfold find_descriptor
  cases hf : blend_indices.find? (fun p => p.1 == key) with
  | none => rfl
  | some p => rw [hf] at h; simp at h

theorem forward_unknown (key : String) (h : isRegistered key = false) (x : ℝ) :
    forward key x = .error (.notFound key) := by
  unfold forward
  rw [find_descriptor_not_registered key h]
  rfl

theorem inverse_unknown (key : String) (h : isRegistered key = false) (x : ℝ) :
    inverse key x = .error (.notFound key) := by
  unfold inverse
  rw [find_descriptor_not_registered key h]
  rfl

theorem first_unknown_is_key (key : String) (h : isRegistered key = false) :
    ∀ cs : List (String × List ℝ), (∃ vs, (key, vs) ∈ cs) →
      (∀ p ∈ cs, p.1 = key ∨ isRegistered p.1 = true) →
      ∃ q, cs.find? (fun p => !(isRegistered p.1)) = some q ∧ q.1 = key := by
  intro cs
  induction cs with
  | nil =>
    rintro ⟨vs, hm⟩ _
    exact absurd hm (List.not_mem_nil _)
  | cons p rest ih =>
    rintro ⟨vs, hm⟩ hall
    cases hp : isRegistered p.1 with
    | true =>
      rw [List.find?_cons_of_neg _ (by simp [hp])]
      have hm2 : (key, vs) ∈ rest := by
        rcases List.mem_cons.mp hm with heq | hrest
        · exfalso
          have ht : isRegistered key = true := by rw [← heq] at hp; exact hp
          rw [ht] at h
          exact Bool.noConfusion h
        · exact hrest
      exact ih ⟨vs, hm2⟩ (fun q hq => hall q (List.mem_cons_of_mem p hq))
    | false =>
      have hkey : p.1 = key := by
        rcases hall p (List.mem_cons_self p rest) with hk | hr
        · exact hk
        · rw [hp] at hr; exact absurd hr (by simp)
      exact ⟨p, List.find?_cons_of_pos _ (by simp [hp]), hkey⟩

/-- C5: an unknown property key fails registry dispatch (forward and
inverse) with `NotFoundError` naming the key, and fails constraint
projection the same way when the constraint set contains it (with every
other key registered); no default transform and no partial result is
ever produced. -/
theorem C5_unknown_key (key : String) (h : isRegistered key = false) :
    (∀ x : ℝ, forward key x = .error (.notFound key)) ∧
    (∀ x : ℝ, inverse key x = .error (.notFound key)) ∧
    (∀ cs : List (String × List ℝ), ∀ dir : Direction,
      (∃ vs, (key, vs) ∈ cs) → (∀ p ∈ cs, p.1 = key ∨ isRegistered p.1 = true) →
      project_constraints cs dir = .error (.notFound key)) := by
  refine ⟨forward_unknown key h, inverse_unknown key h, ?_⟩
  intro cs dir hex hall
  obtain ⟨q, hq, hqk⟩ := first_unknown_is_key key h cs hex hall
  unfold project_constraints
  rw [hq]
  show Except.error (BlendError.notFound q.1) = Except.error (BlendError.notFound key)
  rw [hqk]

/-- C5 witness: the failures evaluated at the key `unknown_prop`, for
scalar dispatch and for the constraint set of the spec's example. -/
theorem C5_unknown_key_witness :
    isRegistered ("unknown_prop") = false ∧
    forward ("unknown_prop") 1 = .error (.notFound ("unknown_prop")) ∧
    inverse ("unknown_prop") 1 = .error (.notFound ("unknown_prop")) ∧
    project_constraints [(("unknown_prop"), [(1 : ℝ)])] Direction.to_index
      = .error (.notFound ("unknown_prop")) := by
  have h : isRegistered ("unknown_prop") = false := rfl
  obtain ⟨hf, hi, hp⟩ := C5_unknown_key ("unknown_prop") h
  exact ⟨h, hf 1, hi 1,
    hp [(("unknown_prop"), [(1 : ℝ)])] Direction.to_index ⟨[1], by simp⟩ (by simp)⟩

/-! Successful projection: per-descriptor success lemmas and the
structural-preservation theorem. -/

theorem ok_bind {α β : Type} (a : α) (f : α → Except BlendError β) :
    (Except.ok a >>= f) = f a := rfl

theorem find_descriptor_ok_of_registered (key : String) (h : isRegistered key = true) :
    ∃ d, find_descriptor key = .ok d ∧ (key, d) ∈ blend_indices := by
  unfold isRegistered at h
  unfold find_descriptor
  cases hf : blend_indices.find? (fun p => p.1 == key) with
  | none => rw [hf] at h; simp at h
  | some p =>
    refine ⟨p.2, rfl, ?_⟩
    have hmem := List.mem_of_find?_eq_some hf
    have hkey : p.1 = key := by simpa using List.find?_some hf
    rw [← hkey]
    simpa using hmem

theorem dirFunc_ok (k : String) (d : Descriptor) (hm : (k, d) ∈ blend_indices)
    (dir : Direction) (vs : List ℝ)
    (hdom : k = "vis100f" → dir = Direction.to_index → ∀ v ∈ vs, 0.2 < v) :
    ∃ ys, dirFunc d dir vs = .ok ys ∧ ys.length = vs.length := by
  simp only [blend_indices, List.mem_cons, List.not_mem_nil, or_false,
    Prod.mk.injEq] at hm
  rcases hm with ⟨hk, hd⟩ | ⟨hk, hd⟩ | ⟨hk, hd⟩ | ⟨hk, hd⟩ <;> subst hd
  · cases dir with
    | to_index =>
      have hall : ∀ v ∈ vs, 0.2 < v := hdom hk rfl
      refine ⟨vs.map vbiFormula, ?_, by simp⟩
      show vbiV vs = _
      unfold vbiV
      rw [if_pos hall]
    | to_physical => exact ⟨vs.map inv_vbi, rfl, by simp⟩
  · cases dir with
    | to_index => exact ⟨vs.map rvpi, rfl, by simp⟩
    | to_physical => exact ⟨vs.map inv_rvpi, rfl, by simp⟩
  · cases dir with
    | to_index => exact ⟨vs.map ppi, rfl, by simp⟩
    | to_physical => exact ⟨vs.map inv_ppi, rfl, by simp⟩
  · cases dir with
    | to_index => exact ⟨vs.map sg, rfl, by simp⟩
    | to_physical => exact ⟨vs.map api, rfl, by simp⟩

/-- The per-entry relation between an input constraint entry and its
projected output entry: same key, same sequence length, and the output
sequence is what the entry's registered transform yields on the input
sequence for the chosen direction. -/
def ProjectedEntry (dir : Direction) (pin pout : String × List ℝ) : Prop :=
  pout.1 = pin.1 ∧ pout.2.length = pin.2.length ∧
    ∃ d, find_descriptor pin.1 = .ok d ∧ dirFunc d dir pin.2 = .ok pout.2

theorem applyAll_ok :
    ∀ cs : List (String × List ℝ), ∀ dir : Direction,
      (∀ p ∈ cs, isRegistered p.1 = true) →
      (∀ p ∈ cs, p.1 = "vis100f" → dir = Direction.to_index → ∀ v ∈ p.2, 0.2 < v) →
      ∃ out, applyAll cs dir = .ok out ∧ out.map Prod.fst = cs.map Prod.fst ∧
        List.Forall₂ (ProjectedEntry dir) cs out := by
  intro cs dir
  induction cs with
  | nil => exact fun _ _ => ⟨[], rfl, rfl, List.Forall₂.nil⟩
  | cons p rest ih =>
    rcases p with ⟨k, vs⟩
    intro hreg hdom
    obtain ⟨d, hd, hmem⟩ :=
      find_descriptor_ok_of_registered k (hreg (k, vs) (List.mem_cons_self _ _))
    obtain ⟨ys, hys, hlen⟩ := dirFunc_ok k d hmem dir vs
      (fun hk hdi => hdom (k, vs) (List.mem_cons_self _ _) hk hdi)
    obtain ⟨out, hout, hmap, hfa⟩ :=
      ih (fun q hq => hreg q (List.mem_cons_of_mem _ hq))
        (fun q hq => hdom q (List.mem_cons_of_mem _ hq))
    refine ⟨(k, ys) :: out, ?_, ?_, ?_⟩
    · have e1 : applyAll ((k, vs) :: rest) dir
          = (find_descriptor k >>= fun d2 => dirFunc d2 dir vs >>= fun ys2 =>
             applyAll rest dir >>= fun tail => pure ((k, ys2) :: tail)) := rfl
      rw [e1, hd, ok_bind, hys, ok_bind, hout, ok_bind]
      rfl
    · simp [hmap]
    · exact List.Forall₂.cons ⟨rfl, hlen, d, hd, hys⟩ hfa

/-- C2 counterexample: the claim as stated fails on a constraint set
whose keys are all registered but one of whose values violates the
viscosity domain — `project_constraints` then fails with the
`DomainError` instead of returning a mapping. -/
theorem C2_domain_violation_fails :
    project_constraints [(("vis100f"), [(0.1 : ℝ)])] Direction.to_index
      = .error .domainError := by
  have hbad : vbiV [(0.1 : ℝ)] = .error .domainError := by
    unfold vbiV
    rw [if_neg]
    intro hall
    have h01 := hall 0.1 (by simp)
    norm_num at h01
  have hred : project_constraints [(("vis100f"), [(0.1 : ℝ)])] Direction.to_index
      = (vbiV [(0.1 : ℝ)] >>= fun ys =>
          applyAll [] Direction.to_index >>= fun tail =>
            pure (((("vis100f") : String), ys) :: tail)) := rfl
  rw [hred, hbad]
  rfl

/-- C2 (amended): for every quality-constraint set whose keys are all
registered and whose values lie in the transforms' valid domains for
the chosen direction (only the viscosity forward transform restricts
its domain), `project_constraints` succeeds and returns a mapping with
exactly the same keys in input iteration order, with identical per-key
sequence lengths, where each value sequence is the corresponding
descriptor's forward (or inverse, per the direction) transform of the
original sequence; it never returns partial results. -/
theorem C2_projection_preserves_structure (cs : List (String × List ℝ)) (dir : Direction)
    (hreg : ∀ p ∈ cs, isRegistered p.1 = true)
    (hdom : ∀ p ∈ cs, p.1 = "vis100f" → dir = Direction.to_index → ∀ v ∈ p.2, 0.2 < v) :
    ∃ out, project_constraints cs dir = .ok out ∧
      out.map Prod.fst = cs.map Prod.fst ∧
      List.Forall₂ (ProjectedEntry dir) cs out := by
  have hnone : cs.find? (fun p => !(isRegistered p.1)) = none := by
    rw [List.find?_eq_none]
    intro p hp
    simp [hreg p hp]
  obtain ⟨out, hout, hmap, hfa⟩ := applyAll_ok cs dir hreg hdom
  refine ⟨out, ?_, hmap, hfa⟩
  unfold project_constraints
  rw [hnone]
  exact hout

/-- C2 witness: the spec's structural-preservation example, the
constraint set with keys `rvp` and `api`, projected to index space. -/
theorem C2_projection_preserves_structure_witness :
    (∀ p ∈ [(("rvp" : String), [(5 : ℝ), 10]), (("api" : String), [(30 : ℝ)])],
      isRegistered p.1 = true) ∧
    ∃ out,
      project_constraints [(("rvp" : String), [(5 : ℝ), 10]), (("api" : String), [(30 : ℝ)])]
        Direction.to_index = .ok out ∧
      out.map Prod.fst
        = [(("rvp" : String), [(5 : ℝ), 10]), (("api" : String), [(30 : ℝ)])].map Prod.fst ∧
      List.Forall₂ (ProjectedEntry Direction.to_index)
        [(("rvp" : String), [(5 : ℝ), 10]), (("api" : String), [(30 : ℝ)])] out := by
  have hreg : ∀ p ∈ [(("rvp" : String), [(5 : ℝ), 10]), (("api" : String), [(30 : ℝ)])],
      isRegistered p.1 = true := by
    intro p hp
    rcases List.mem_cons.mp hp with h1 | h2
    · rw [h1]; exact rfl
    · rw [List.mem_singleton.mp h2]; exact rfl
  exact ⟨hreg, C2_projection_preserves_structure _ _ hreg (by simp)⟩

/-! Vectorization agrees with elementwise application. -/

theorem vbi_isOk_iff (x : ℝ) : isOk (vbi x) = true ↔ 0.2 < x := by
  unfold vbi
  by_cases h : 0.2 < x
  · simp [if_pos h, isOk, h]
  · simp [if_neg h, isOk, h]

theorem mapM_okMap (f : ℝ → ℝ) : ∀ xs : List ℝ, xs.mapM (okMap f) = .ok (xs.map f) := by
  intro xs
  induction xs with
  | nil => rfl
  | cons a t ih =>
    rw [List.mapM_cons, ih]
    rfl

theorem mapM_vbi : ∀ xs : List ℝ, (∀ x ∈ xs, 0.2 < x) → xs.mapM vbi = .ok (xs.map vbiFormula) := by
  intro xs
  induction xs with
  | nil => intro _; rfl
  | cons a t ih =>
    intro hall
    have ha : 0.2 < a := hall a (List.mem_cons_self a t)
    have hvbi : vbi a = .ok (vbiFormula a) := by unfold vbi; rw [if_pos ha]
    rw [List.mapM_cons, hvbi, ih (fun x hx => hall x (List.mem_cons_of_mem a hx))]
    rfl

/-- C7: for every registered property, applying the vectorized forward
transform to a list of domain-valid values yields the same result, in
the same order, as applying the scalar forward transform to each
element individually and collecting the results (`mapM`); the scalar
transform maps a scalar to a scalar by its type. -/
theorem C7_vectorization_consistency :
    ∀ k d, (k, d) ∈ blend_indices →
      ∀ xs : List ℝ, (∀ x ∈ xs, isOk (d.func x) = true) →
        d.vfunc xs = xs.mapM d.func := by
  intro k d hm
  simp only [blend_indices, List.mem_cons, List.not_mem_nil, or_false,
    Prod.mk.injEq] at hm
  rcases hm with ⟨hk, hd⟩ | ⟨hk, hd⟩ | ⟨hk, hd⟩ | ⟨hk, hd⟩ <;> subst hd <;> intro xs hok
  · have hall : ∀ x ∈ xs, 0.2 < x := fun x hx => (vbi_isOk_iff x).mp (hok x hx)
    show vbiV xs = xs.mapM vbi
    rw [mapM_vbi xs hall]
    unfold vbiV
    rw [if_pos hall]
  · show okMapV rvpi xs = xs.mapM (okMap rvpi)
    rw [mapM_okMap]
    rfl
  · show okMapV ppi xs = xs.mapM (okMap ppi)
    rw [mapM_okMap]
    rfl
  · show okMapV sg xs = xs.mapM (okMap sg)
    rw [mapM_okMap]
    rfl

/-- C7 witness: the consistency evaluated for the `rvp` descriptor on
the list `[5, 10]`. -/
theorem C7_vectorization_consistency_witness :
    (("rvp" : String), rvpD) ∈ blend_indices ∧
    (∀ x ∈ [(5 : ℝ), 10], isOk (rvpD.func x) = true) ∧
    rvpD.vfunc [(5 : ℝ), 10] = [(5 : ℝ), 10].mapM rvpD.func := by
  have hm : (("rvp" : String), rvpD) ∈ blend_indices := by simp [blend_indices]
  have hok : ∀ x ∈ [(5 : ℝ), 10], isOk (rvpD.func x) = true := fun x _ => rfl
  exact ⟨hm, hok, C7_vectorization_consistency ("rvp") rvpD hm [5, 10] hok⟩

end BlendIndices
